import Mathlib

/-!
Verification of the motion-detection core of picam (src/motion.c).

The C code is shallowly embedded: the global context struct mctx becomes an
explicit Config value, the static locals of ma_filter (ring buffer cursor and
running sum) become an explicit FilterState threaded through calls, machine
ints become Nat (all quantities handled by the filter are non-negative counts
in every scenario considered; no intermediate value approaches 2^31), and the
heap map allocated by malloc becomes a function Nat -> Option Nat where none
models an uninitialized cell.
-/

namespace Picam

/-- Fields of the global mctx relevant to detection: mctx.width (the stored
column count, which is the macroblock width plus one sentinel column, set in
initmotion as ((width+15)/16)+1), mctx.height, mctx.threshold and
mctx.window_size. -/
structure Config where
  width : Nat
  height : Nat
  threshold : Nat
  window_size : Nat
deriving DecidableEq

/-- nmblk as computed in ma_filter: mctx.width * mctx.height. -/
def Config.nmblk (cfg : Config) : Nat := cfg.width * cfg.height

/-- State of the noise filter: the ring buffer mctx.filter_window together
with the static locals i (cursor) and sum of ma_filter. -/
structure FilterState where
  window : List Nat
  cursor : Nat
  sum : Nat
deriving DecidableEq

/-- Filter state right after initmotion: calloc zeroes the ring buffer and the
static locals i and sum start at 0. -/
def initFilter (cfg : Config) : FilterState :=
  ⟨List.replicate cfg.window_size 0, 0, 0⟩

/-- The ring index computed in the trend loop of ma_filter:
k = i - j; if (k < 0) k = window_size + i - j. -/
def ringIdx (wsize i j : Nat) : Nat :=
  if i < j then wsize + i - j else i - j

/-- ma_filter from motion.c, lines 197-248.  Takes the raw exceedance count t
and returns the updated filter state together with the smoothed count.
Mirrors the C statement by statement: quarter-of-the-frame clamp to threshold,
running-sum update with both sides clamped to threshold*4, noise floor
sum/window_size, insertion at the cursor, 12-sample trend average, cursor
advance, and noise-floor subtraction clamped at zero. -/
def ma_filter (cfg : Config) (s : FilterState) (t0 : Nat) : FilterState × Nat :=
  let t := if cfg.nmblk / 4 < t0 then cfg.threshold else t0
  let sum1 := s.sum + min t (cfg.threshold * 4)
  let sum2 := sum1 - min (s.window.getD s.cursor 0) (cfg.threshold * 4)
  let nf := sum2 / cfg.window_size
  let w := s.window.set s.cursor t
  let head_avg := ((List.range 12).map (fun j => w.getD (ringIdx cfg.window_size s.cursor j) 0)).sum
  let trend := head_avg / 12
  let i := if cfg.window_size ≤ s.cursor + 1 then 0 else s.cursor + 1
  (⟨w, i, sum2⟩, if nf < trend then trend - nf else 0)

/-- The quarter-of-the-frame clamp at the top of ma_filter, named for use in
lemma statements: if (t > nmblk/4) t = threshold. -/
def clampQ (cfg : Config) (t0 : Nat) : Nat :=
  if cfg.nmblk / 4 < t0 then cfg.threshold else t0

/-- The ring buffer contents after ma_filter stores the clamped count. -/
def winAfter (cfg : Config) (s : FilterState) (t0 : Nat) : List Nat :=
  s.window.set s.cursor (clampQ cfg t0)

/-- The running sum after ma_filter updates it. -/
def sumAfter (cfg : Config) (s : FilterState) (t0 : Nat) : Nat :=
  s.sum + min (clampQ cfg t0) (cfg.threshold * 4)
    - min (s.window.getD s.cursor 0) (cfg.threshold * 4)

/-- The noise floor nf computed by ma_filter. -/
def nfAfter (cfg : Config) (s : FilterState) (t0 : Nat) : Nat :=
  sumAfter cfg s t0 / cfg.window_size

/-- The 12-sample trend average computed by ma_filter. -/
def trendAfter (cfg : Config) (s : FilterState) (t0 : Nat) : Nat :=
  ((List.range 12).map
    (fun j => (winAfter cfg s t0).getD (ringIdx cfg.window_size s.cursor j) 0)).sum / 12

/-- The exceedance-counting loop of lookformotion (motion.c lines 310-315):
for i in [0, n) count the cells where map[i] < dx*dx + dy*dy.  The map holds
uint16 values and the vectors are int8 pairs, so the comparison is done in
Int as in C.  n is passed by the caller as mctx.width * mctx.height. -/
def countExceed (map : List Nat) (v : List (Int × Int)) (n : Nat) : Nat :=
  (List.range n).countP (fun i =>
    decide ((map.getD i 0 : Int) <
      (v.getD i (0, 0)).1 * (v.getD i (0, 0)).1 +
      (v.getD i (0, 0)).2 * (v.getD i (0, 0)).2))

/-- lookformotion from motion.c, lines 301-325 (the diagnostics dump is
omitted; it does not touch the detection state).  Returns the new filter
state, the filtered count ft, and whether the event callback is invoked
(ft >= mctx.threshold). -/
def lookformotion (cfg : Config) (map : List Nat) (s : FilterState) (v : List (Int × Int)) :
    FilterState × Nat × Bool :=
  let t := countExceed map v (cfg.width * cfg.height)
  let r := ma_filter cfg s t
  (r.1, r.2, decide (cfg.threshold ≤ r.2))

/-- Fold ma_filter over a list of raw counts, keeping the final state. -/
def runFilter (cfg : Config) (s : FilterState) (ts : List Nat) : FilterState :=
  ts.foldl (fun s t => (ma_filter cfg s t).1) s

/-- Number of event-callback invocations produced when the worker feeds the
given sequence of exceedance counts through ma_filter (the callback fires on
a frame iff ft >= mctx.threshold, motion.c line 322). -/
def runFires (cfg : Config) (s : FilterState) : List Nat → Nat
  | [] => 0
  | t :: ts =>
    (if cfg.threshold ≤ (ma_filter cfg s t).2 then 1 else 0)
      + runFires cfg (ma_filter cfg s t).1 ts

/-- The heap map returned by malloc in initmotion: every cell uninitialized. -/
def mallocMap : Nat → Option Nat := fun _ => none

/-- A single store mctx.map[i] = v. -/
def writeCell (m : Nat → Option Nat) (i v : Nat) : Nat → Option Nat :=
  fun j => if j = i then some v else m j

/-- The uniform-sensitivity branch of initmotion (motion.c lines 174-184):
sens is squared and clamped to 65535, every cell map[y*cols + x] with
x < cols-1 receives it, and after each row the code stores 65535 at index
y*cols + cols (which is the first cell of row y+1, not the last cell of
row y). -/
def buildUniform (rows cols sens : Nat) : Nat → Option Nat :=
  let s2 := min (sens * sens) 65535
  (List.range rows).foldl (fun m y =>
    let m2 := (List.range (cols - 1)).foldl
      (fun m x => writeCell m (y * cols + x) s2) m
    writeCell m2 (y * cols + cols) 65535) mallocMap

/-- readmap from motion.c, lines 100-144.  The file I/O and libpng decoding
are abstracted into the decoded argument: none models fopen failure, a bad
PNG signature or a failed png_create_*_struct (each makes readmap return -1),
and some img models a successful decode into 8-bit pixel rows.  The fill loop
is translated verbatim: it runs over mctx.height rows and mctx.width-1
columns of the decoded image with no dimension check whatsoever; reads past
the actual image (an out-of-bounds access in C) are modelled by getD with
default 0.  Each row ends with the store mctx.map[(i+1)*width] = 65535.
Returns the C return value together with the map contents. -/
def readmap (rows cols : Nat) (decoded : Option (List (List Nat))) :
    Int × (Nat → Option Nat) :=
  match decoded with
  | none => (-1, mallocMap)
  | some img =>
    (0, (List.range rows).foldl (fun m i =>
      let r := img.getD i []
      let m2 := (List.range (cols - 1)).foldl
        (fun m j => writeCell m (i * cols + j) (r.getD j 0 * r.getD j 0 % 65536)) m
      writeCell m2 ((i + 1) * cols) 65535) mallocMap)

/-- Result of initmotion: the C return value, whether pthread_create was
reached (the detached worker thread spawned), the stored context and the
calloc-ed filter window, and the sensitivity map contents. -/
structure InitResult where
  ret : Int
  threadSpawned : Bool
  cfg : Config
  filter_window : List Nat
  map : Nat → Option Nat

/-- initmotion from motion.c, lines 148-195.  mapArg follows the C argument:
none when no mapfile is given (uniform branch), some d when a mapfile name is
passed, with d the abstracted decode outcome handed to readmap.  The function
performs no validation of window_size (or of the dimensions): whenever the
map is absent or loads successfully it returns 0 and spawns the worker. -/
def initmotion (width height : Nat) (mapArg : Option (Option (List (List Nat))))
    (sens thresh window_size : Nat) : InitResult :=
  let rows := (height + 15) / 16
  let cols := (width + 15) / 16 + 1
  let cfg : Config := ⟨cols, rows, thresh, window_size⟩
  let fw := List.replicate window_size 0
  match mapArg with
  | some decoded =>
    let r := readmap rows cols decoded
    if r.1 = 0 then ⟨0, true, cfg, fw, r.2⟩ else ⟨-1, false, cfg, fw, r.2⟩
  | none => ⟨0, true, cfg, fw, buildUniform rows cols sens⟩

/-- The single-slot frame mailbox: mctx.vectors guarded by mctx.lock, plus a
ledger of every buffer passed to av_free by the producer side.  The mutex in
the C code makes publish/take atomic, so the sequential semantics below is
the per-operation behaviour under the lock. -/
structure Mailbox (α : Type) where
  slot : Option α
  freed : List α

/-- findmotion from motion.c, lines 348-360 (the producer publish): under the
lock, a still-undelivered previous frame is freed, the new frame is stored
and the consumer is signalled. -/
def findmotion {α : Type} (m : Mailbox α) (frame : α) : Mailbox α :=
  match m.slot with
  | some old => ⟨some frame, m.freed ++ [old]⟩
  | none => ⟨some frame, m.freed⟩

/-- The take step of the worker loop in motionstart (motion.c lines 334-338):
under the lock after the condition wait, tv = mctx.vectors and
mctx.vectors = NULL.  Returns the taken frame and the emptied mailbox. -/
def motionstart_take {α : Type} (m : Mailbox α) : Option α × Mailbox α :=
  (m.slot, ⟨none, m.freed⟩)

/-- NoiseFilter.observe exactly as the specification words it: clamp the raw
count to threshold when it exceeds total_macroblocks/4; add
min(clamped, 4*threshold) to the running sum and subtract the equally clamped
value leaving the oldest ring slot; noise_floor = sum / window_size; store the
clamped count at the cursor and advance the cursor modulo window_size; trend
is the integer average of the 12 most recent ring samples wrapping backward
from the cursor; return max(trend - noise_floor, 0) (as an integer max). -/
def observe_spec (cfg : Config) (s : FilterState) (raw : Nat) : FilterState × Int :=
  let clamped := if cfg.nmblk / 4 < raw then cfg.threshold else raw
  let sum2 := s.sum + min clamped (4 * cfg.threshold)
    - min (s.window.getD s.cursor 0) (4 * cfg.threshold)
  let noise_floor := sum2 / cfg.window_size
  let w := s.window.set s.cursor clamped
  let trend := (∑ j ∈ Finset.range 12,
    w.getD ((s.cursor + cfg.window_size - j) % cfg.window_size) 0) / 12
  (⟨w, (s.cursor + 1) % cfg.window_size, sum2⟩,
    max ((trend : Int) - (noise_floor : Int)) 0)

/-- The clamped contribution of one ring slot to the running sum. -/
def clampT (cfg : Config) (v : Nat) : Nat := min v (cfg.threshold * 4)

/-- Sum of the clamped contributions of all ring slots. -/
def sumClamped (cfg : Config) (w : List Nat) : Nat :=
  ∑ j ∈ Finset.range w.length, clampT cfg (w.getD j 0)

/-- A well-formed filter state: ring length window_size, cursor in range, and
the running sum equal to the clamped slot total. -/
def Valid (cfg : Config) (s : FilterState) : Prop :=
  s.window.length = cfg.window_size ∧ s.cursor < cfg.window_size ∧
    s.sum = sumClamped cfg s.window

instance (cfg : Config) (s : FilterState) : Decidable (Valid cfg s) := by
  unfold Valid; infer_instance

/-- The state shape the filter reaches after at least window_size - 1
consecutive frames of the same raw count c: well-formed, with every slot
other than the one at the cursor holding the clamped count. -/
def NearUniform (cfg : Config) (c : Nat) (s : FilterState) : Prop :=
  s.window.length = cfg.window_size ∧ s.cursor < cfg.window_size ∧
    s.sum = sumClamped cfg s.window ∧
    ∀ j, j < cfg.window_size → j ≠ s.cursor → s.window.getD j 0 = clampQ cfg c

theorem getD_set_self {α : Type} (l : List α) (i : Nat) (a d : α) (h : i < l.length) :
    (l.set i a).getD i d = a := by
  induction l generalizing i with
  | nil => simp at h
  | cons x xs ih =>
    cases i with
    | zero => rfl
    | succ n => simpa using ih n (by simpa using h)

theorem getD_set_ne {α : Type} (l : List α) (i j : Nat) (a d : α) (h : i ≠ j) :
    (l.set i a).getD j d = l.getD j d := by
  induction l generalizing i j with
  | nil => simp
  | cons x xs ih =>
    cases i with
    | zero =>
      cases j with
      | zero => exact absurd rfl h
      | succ m => rfl
    | succ n =>
      cases j with
      | zero => rfl
      | succ m => simpa using ih n m (by omega)

theorem getD_replicate_zero (n i : Nat) : (List.replicate n (0 : Nat)).getD i 0 = 0 := by
  induction n generalizing i with
  | zero => rfl
  | succ m ih =>
    cases i with
    | zero => rfl
    | succ k =>
      rw [List.replicate_succ]
      exact ih k

theorem set_getD_same {α : Type} (l : List α) (i : Nat) (a d : α)
    (h : l.getD i d = a) (hi : i < l.length) : l.set i a = l := by
  induction l generalizing i with
  | nil => rfl
  | cons x xs ih =>
    cases i with
    | zero => simpa using h.symm
    | succ n =>
      simp only [List.set_cons_succ, List.cons.injEq, true_and]
      exact ih n (by simpa using h) (by simpa using hi)

theorem list_sum_range_eq (f : Nat → Nat) (n : Nat) :
    ((List.range n).map f).sum = ∑ j ∈ Finset.range n, f j := by
  induction n with
  | zero => rfl
  | succ m ih => simp [List.range_succ, Finset.sum_range_succ, ih]

theorem cursorAdv (wsize i : Nat) (h : i < wsize) :
    (if wsize ≤ i + 1 then 0 else i + 1) = (i + 1) % wsize := by
  rcases Nat.lt_or_ge (i + 1) wsize with h1 | h1
  · rw [if_neg (by omega), Nat.mod_eq_of_lt h1]
  · have : i + 1 = wsize := by omega
    rw [if_pos (by omega), this, Nat.mod_self]

theorem ringIdx_eq_mod (wsize i j : Nat) (hi : i < wsize) (hj : j ≤ wsize) :
    ringIdx wsize i j = (i + wsize - j) % wsize := by
  unfold ringIdx
  rcases Nat.lt_or_ge i j with h | h
  · rw [if_pos h]
    have h1 : i + wsize - j = wsize + i - j := by omega
    rw [h1, Nat.mod_eq_of_lt (by omega)]
  · rw [if_neg (by omega)]
    have h1 : i + wsize - j = (i - j) + wsize := by omega
    rw [h1, Nat.add_mod_right, Nat.mod_eq_of_lt (by omega)]

theorem ringIdx_lt (wsize i j : Nat) (hi : i < wsize) (hj : j ≤ wsize) :
    ringIdx wsize i j < wsize := by
  rw [ringIdx_eq_mod wsize i j hi hj]
  exact Nat.mod_lt _ (by omega)

theorem addModEqSelf (wsize i m : Nat) (hi : i < wsize) :
    (i + m) % wsize = i ↔ wsize ∣ m := by
  constructor
  · intro h
    have h1 : i ≡ i + m [MOD wsize] := by
      unfold Nat.ModEq
      rw [h, Nat.mod_eq_of_lt hi]
    have h2 := (Nat.modEq_iff_dvd' (by omega)).mp h1
    simpa using h2
  · intro h
    obtain ⟨k, hk⟩ := h
    rw [hk, Nat.add_mul_mod_self_left, Nat.mod_eq_of_lt hi]

theorem addModCancel (wsize p a b : Nat) (ha : a < wsize) (hb : b < wsize)
    (h : (p + a) % wsize = (p + b) % wsize) : a = b := by
  have h1 : p + a ≡ p + b [MOD wsize] := h
  have h2 : a ≡ b [MOD wsize] := Nat.ModEq.add_left_cancel' p h1
  have h3 : a % wsize = b % wsize := h2
  rwa [Nat.mod_eq_of_lt ha, Nat.mod_eq_of_lt hb] at h3

theorem modAddShift (wsize a b : Nat) : (a % wsize + b) % wsize = (a + b) % wsize :=
  Nat.mod_add_mod a wsize b

theorem ma_filter_eq (cfg : Config) (s : FilterState) (t0 : Nat) :
    ma_filter cfg s t0 =
      (⟨winAfter cfg s t0,
        if cfg.window_size ≤ s.cursor + 1 then 0 else s.cursor + 1,
        sumAfter cfg s t0⟩,
       if nfAfter cfg s t0 < trendAfter cfg s t0
         then trendAfter cfg s t0 - nfAfter cfg s t0 else 0) := rfl

theorem clampT_le_sumClamped (cfg : Config) (w : List Nat) (i : Nat) (h : i < w.length) :
    clampT cfg (w.getD i 0) ≤ sumClamped cfg w := by
  unfold sumClamped
  exact Finset.single_le_sum
    (fun j _ => Nat.zero_le (clampT cfg (w.getD j 0))) (Finset.mem_range.mpr h)

theorem sumClamped_set (cfg : Config) (w : List Nat) (i a : Nat) (h : i < w.length) :
    sumClamped cfg (w.set i a) + clampT cfg (w.getD i 0)
      = sumClamped cfg w + clampT cfg a := by
  unfold sumClamped
  have hlen : (w.set i a).length = w.length := by simp
  rw [hlen]
  have hmem : i ∈ Finset.range w.length := Finset.mem_range.mpr h
  have h1 : ∑ j ∈ Finset.range w.length, clampT cfg ((w.set i a).getD j 0)
      = clampT cfg a + ∑ j ∈ (Finset.range w.length).erase i, clampT cfg (w.getD j 0) := by
    rw [← Finset.add_sum_erase _ (fun j => clampT cfg ((w.set i a).getD j 0)) hmem,
      getD_set_self _ _ _ _ h]
    refine congrArg _ (Finset.sum_congr rfl ?_)
    intro j hj
    rw [getD_set_ne _ _ _ _ _ (Ne.symm (Finset.ne_of_mem_erase hj))]
  have h2 : ∑ j ∈ Finset.range w.length, clampT cfg (w.getD j 0)
      = clampT cfg (w.getD i 0)
        + ∑ j ∈ (Finset.range w.length).erase i, clampT cfg (w.getD j 0) := by
    rw [← Finset.add_sum_erase _ (fun j => clampT cfg (w.getD j 0)) hmem]
  omega

theorem valid_step (cfg : Config) (s : FilterState) (t : Nat) (hv : Valid cfg s) :
    Valid cfg (ma_filter cfg s t).1 := by
  obtain ⟨hlen, hcur, hsum⟩ := hv
  have hcl : s.cursor < s.window.length := by omega
  rw [ma_filter_eq]
  refine ⟨by simp [winAfter, hlen], ?_, ?_⟩
  · show (if cfg.window_size ≤ s.cursor + 1 then 0 else s.cursor + 1) < cfg.window_size
    rw [cursorAdv _ _ hcur]
    exact Nat.mod_lt _ (by omega)
  · show sumAfter cfg s t = sumClamped cfg (winAfter cfg s t)
    have hset := sumClamped_set cfg s.window s.cursor (clampQ cfg t) hcl
    have hle := clampT_le_sumClamped cfg s.window s.cursor hcl
    unfold sumAfter winAfter
    unfold clampT at hset hle
    omega

theorem valid_runFilter (cfg : Config) (s : FilterState) (ts : List Nat) (hv : Valid cfg s) :
    Valid cfg (runFilter cfg s ts) := by
  induction ts generalizing s with
  | nil => exact hv
  | cons t ts ih => exact ih _ (valid_step cfg s t hv)

theorem valid_initFilter (cfg : Config) (h : 0 < cfg.window_size) :
    Valid cfg (initFilter cfg) := by
  refine ⟨by simp [initFilter], by simpa [initFilter] using h, ?_⟩
  show (0 : Nat) = sumClamped cfg (List.replicate cfg.window_size 0)
  unfold sumClamped
  have hz : ∀ j ∈ Finset.range (List.replicate cfg.window_size (0 : Nat)).length,
      clampT cfg ((List.replicate cfg.window_size (0 : Nat)).getD j 0) = 0 := by
    intro j _
    rw [getD_replicate_zero]
    simp [clampT]
  rw [Finset.sum_congr rfl hz, Finset.sum_const, smul_zero]

theorem natSubCast (a b : Nat) : ((a - b : Nat) : Int) = max ((a : Int) - (b : Int)) 0 := by
  rcases Nat.le_total b a with h | h
  · rw [Int.ofNat_sub h, max_eq_left (by omega)]
  · rw [Nat.sub_eq_zero_of_le h, max_eq_right (by omega)]
    rfl

theorem observe_spec_eq (cfg : Config) (s : FilterState) (raw : Nat) :
    observe_spec cfg s raw =
      (⟨s.window.set s.cursor (clampQ cfg raw), (s.cursor + 1) % cfg.window_size,
        s.sum + min (clampQ cfg raw) (4 * cfg.threshold)
          - min (s.window.getD s.cursor 0) (4 * cfg.threshold)⟩,
       max ((((∑ j ∈ Finset.range 12,
             (s.window.set s.cursor (clampQ cfg raw)).getD
               ((s.cursor + cfg.window_size - j) % cfg.window_size) 0) / 12 : Nat) : Int)
         - (((s.sum + min (clampQ cfg raw) (4 * cfg.threshold)
             - min (s.window.getD s.cursor 0) (4 * cfg.threshold))
               / cfg.window_size : Nat) : Int)) 0) := rfl

theorem countP_range_eq (p : Nat → Bool) (n : Nat) :
    (List.range n).countP p = ∑ i ∈ Finset.range n, (if p i then 1 else 0) := by
  induction n with
  | zero => rfl
  | succ m ih =>
    rw [List.range_succ, List.countP_append, Finset.sum_range_succ, ih]
    simp [List.countP_cons]

/-- C1: for every call to NoiseFilter.observe (ma_filter) on a well-formed
state with window_size >= 12, the code computes exactly what the
specification describes: quarter clamp to threshold, running-sum update with
min(clamped, 4*threshold) added and the equally clamped value of the slot
about to leave the ring subtracted, noise_floor = sum / window_size, clamped
store at the cursor, cursor advance modulo window_size, trend the integer
average of the 12 most recent ring samples wrapping backward from the cursor,
and output max(trend - noise_floor, 0).  The final conjunct certifies that
the subtraction in the sum update never truncates. -/
theorem ma_filter_matches_spec (cfg : Config) (s : FilterState) (raw : Nat)
    (h12 : 12 ≤ cfg.window_size) (hv : Valid cfg s) :
    (ma_filter cfg s raw).1 = (observe_spec cfg s raw).1 ∧
    ((ma_filter cfg s raw).2 : Int) = (observe_spec cfg s raw).2 ∧
    min (s.window.getD s.cursor 0) (4 * cfg.threshold) ≤ s.sum := by
  obtain ⟨hlen, hcur, hsum⟩ := hv
  have hcl : s.cursor < s.window.length := by omega
  have hmin : min (s.window.getD s.cursor 0) (4 * cfg.threshold) ≤ s.sum := by
    have h := clampT_le_sumClamped cfg s.window s.cursor hcl
    unfold clampT at h
    rw [Nat.mul_comm cfg.threshold 4] at h
    omega
  have htr : trendAfter cfg s raw
      = (∑ j ∈ Finset.range 12,
          (s.window.set s.cursor (clampQ cfg raw)).getD
            ((s.cursor + cfg.window_size - j) % cfg.window_size) 0) / 12 := by
    unfold trendAfter
    rw [list_sum_range_eq]
    have hcg : ∀ j ∈ Finset.range 12,
        (winAfter cfg s raw).getD (ringIdx cfg.window_size s.cursor j) 0
          = (s.window.set s.cursor (clampQ cfg raw)).getD
              ((s.cursor + cfg.window_size - j) % cfg.window_size) 0 := by
      intro j hj
      have hj12 : j < 12 := Finset.mem_range.mp hj
      rw [ringIdx_eq_mod _ _ _ hcur (by omega)]
      rfl
    rw [Finset.sum_congr rfl hcg]
  have hnf : nfAfter cfg s raw
      = (s.sum + min (clampQ cfg raw) (4 * cfg.threshold)
          - min (s.window.getD s.cursor 0) (4 * cfg.threshold)) / cfg.window_size := by
    unfold nfAfter sumAfter
    rw [Nat.mul_comm cfg.threshold 4]
  rw [ma_filter_eq, observe_spec_eq]
  dsimp only
  refine ⟨?_, ?_, hmin⟩
  · simp only [FilterState.mk.injEq]
    refine ⟨rfl, cursorAdv _ _ hcur, ?_⟩
    unfold sumAfter
    rw [Nat.mul_comm cfg.threshold 4]
  · rw [← htr, ← hnf]
    have hout : (if nfAfter cfg s raw < trendAfter cfg s raw
        then trendAfter cfg s raw - nfAfter cfg s raw else 0)
        = trendAfter cfg s raw - nfAfter cfg s raw := by
      split <;> omega
    rw [hout, natSubCast]

/-- Witness for C1 at a concrete configuration and state. -/
theorem ma_filter_matches_spec_witness :
    12 ≤ (⟨3, 2, 1, 12⟩ : Config).window_size ∧
    Valid ⟨3, 2, 1, 12⟩ ⟨List.replicate 12 0, 0, 0⟩ ∧
    ((ma_filter ⟨3, 2, 1, 12⟩ ⟨List.replicate 12 0, 0, 0⟩ 5).1
        = (observe_spec ⟨3, 2, 1, 12⟩ ⟨List.replicate 12 0, 0, 0⟩ 5).1 ∧
      ((ma_filter ⟨3, 2, 1, 12⟩ ⟨List.replicate 12 0, 0, 0⟩ 5).2 : Int)
        = (observe_spec ⟨3, 2, 1, 12⟩ ⟨List.replicate 12 0, 0, 0⟩ 5).2 ∧
      min ((⟨List.replicate 12 0, 0, 0⟩ : FilterState).window.getD 0 0)
          (4 * (⟨3, 2, 1, 12⟩ : Config).threshold)
        ≤ (⟨List.replicate 12 0, 0, 0⟩ : FilterState).sum) :=
  ⟨by decide, by decide,
    ma_filter_matches_spec ⟨3, 2, 1, 12⟩ ⟨List.replicate 12 0, 0, 0⟩ 5
      (by decide) (by decide)⟩

/-- C4 (code bug): at width_mb = 2, height_mb = 2 (rows = 2, cols = 3) with
sensitivity 10, initmotion's uniform branch fills every non-sentinel cell
(indices 0, 1, 3, 4) with min(10*10, 65535) = 100 as claimed, but the
sentinel cell of each row (indices 2 and 5, column index width_mb) is left
uninitialized malloc memory instead of 65535: the store meant for it lands at
index y*cols + cols, one cell past the row, so the row-0 store is overwritten
by the row-1 fill and the row-1 store writes 65535 outside the grid at
index 6. -/
theorem buildUniform_sentinel_bug :
    buildUniform 2 3 10 0 = some 100 ∧ buildUniform 2 3 10 1 = some 100 ∧
    buildUniform 2 3 10 3 = some 100 ∧ buildUniform 2 3 10 4 = some 100 ∧
    buildUniform 2 3 10 2 = none ∧ buildUniform 2 3 10 5 = none ∧
    buildUniform 2 3 10 6 = some 65535 := by
  decide

/-- C5 counterexample: lookformotion's loop bound is
n = mctx.width * mctx.height = (width_mb + 1) * height_mb, which includes the
sentinel column, not exactly [0, width_mb * height_mb).  With width_mb = 1,
height_mb = 1, a map whose sentinel cell holds 100 (it is uninitialized
memory, so any uint16 value is possible) and a frame whose sentinel-position
vector is (11, 0), the code counts 1 exceedance while counting over
[0, width_mb * height_mb) would give 0. -/
theorem countExceed_range_cex :
    countExceed [100, 100] [(0, 0), (11, 0)] ((1 + 1) * 1) = 1 ∧
    countExceed [100, 100] [(0, 0), (11, 0)] (1 * 1) = 0 := by
  decide

/-- C5 amended: the exceedance count ranges over the indices
i in [0, (width_mb + 1) * height_mb) — the sentinel column included —
incrementing iff dx[i]^2 + dy[i]^2 > map[i]; and in the spec example
(width_mb = 2, height_mb = 2, uniform value 100 on all scanned cells, zero
vectors elsewhere) a vector (10, 0) produces no exceedance while (11, 0)
produces exceedance count 1. -/
theorem countExceed_range_amended :
    (∀ (wmb hmb : Nat) (map : List Nat) (v : List (Int × Int)),
      countExceed map v ((wmb + 1) * hmb)
        = ((Finset.range ((wmb + 1) * hmb)).filter (fun i =>
            (map.getD i 0 : Int) < (v.getD i (0, 0)).1 * (v.getD i (0, 0)).1
              + (v.getD i (0, 0)).2 * (v.getD i (0, 0)).2)).card) ∧
    countExceed (List.replicate 6 100)
      [(10, 0), (0, 0), (0, 0), (0, 0), (0, 0), (0, 0)] ((2 + 1) * 2) = 0 ∧
    countExceed (List.replicate 6 100)
      [(11, 0), (0, 0), (0, 0), (0, 0), (0, 0), (0, 0)] ((2 + 1) * 2) = 1 := by
  refine ⟨?_, by decide, by decide⟩
  intro wmb hmb map v
  unfold countExceed
  rw [countP_range_eq, Finset.card_filter]
  refine Finset.sum_congr rfl ?_
  intro i _
  by_cases h : (map.getD i 0 : Int) < (v.getD i (0, 0)).1 * (v.getD i (0, 0)).1
      + (v.getD i (0, 0)).2 * (v.getD i (0, 0)).2 <;> simp [h]

/-- C6: publishing frame A then frame B into an empty mailbox before any take
leaves exactly B in the slot, the next take returns B, a further take returns
nothing, and A has been freed exactly once (the freed ledger is [A]) —
latest-frame-wins with no queueing. -/
theorem mailbox_latest_wins {α : Type} (A B : α) :
    (findmotion (findmotion (⟨none, []⟩ : Mailbox α) A) B).slot = some B ∧
    (motionstart_take (findmotion (findmotion (⟨none, []⟩ : Mailbox α) A) B)).1 = some B ∧
    (motionstart_take
      (motionstart_take (findmotion (findmotion (⟨none, []⟩ : Mailbox α) A) B)).2).1 = none ∧
    (findmotion (findmotion (⟨none, []⟩ : Mailbox α) A) B).freed = [A] :=
  ⟨rfl, rfl, rfl, rfl⟩

/-- C7 (code bug): initmotion performs no validation of window_size at all:
with window_size = 5 < 12 (and no map file) it still returns 0 (success) and
reaches pthread_create, spawning the detached worker — the claimed
configuration-error return does not exist in the code (and ma_filter's trend
loop then indexes filter_window out of bounds). -/
theorem initmotion_no_window_check :
    (initmotion 640 480 none 10 1 5).ret = 0 ∧
    (initmotion 640 480 none 10 1 5).threadSpawned = true :=
  ⟨rfl, rfl⟩

/-- C8 (code bug): readmap returns -1 when the file cannot be read or decoded
(the decoded = none case), but performs no dimension check whatsoever: a
decoded image of 1 row and 1 column is accepted with return value 0 for a
grid needing 2 rows of 2 non-sentinel columns (rows = 2, cols = 3), the fill
loop reading past the image instead of surfacing a DimensionMismatch. -/
theorem readmap_no_dimension_check :
    (readmap 2 3 (some [[7]])).1 = 0 ∧ (readmap 2 3 none).1 = -1 :=
  ⟨rfl, rfl⟩

/-- C9 counterexample: an empty frame (height_mb = 0, so
width_mb * height_mb = 0) with threshold 0 is NOT a no-op: the exceedance
count is 0, but the frame is still fed through ma_filter — the cursor
advances from 0 to 1 — and the callback fires (ft = 0 >= threshold = 0). -/
theorem empty_frame_cex :
    (lookformotion ⟨5, 0, 0, 12⟩ [] ⟨List.replicate 12 0, 0, 0⟩ []).2.2 = true ∧
    (lookformotion ⟨5, 0, 0, 12⟩ [] ⟨List.replicate 12 0, 0, 0⟩ []).1.cursor = 1 := by
  decide

/-- C9 amended: for a frame with height_mb = 0 the exceedance count is 0, but
Detector.process still runs the filter on that 0: the ring slot at the cursor
is overwritten with 0, the cursor advances modulo window_size, and the
callback is invoked exactly when the smoothed output reaches the threshold. -/
theorem empty_frame_amended (cfg : Config) (map : List Nat) (s : FilterState)
    (v : List (Int × Int)) (h0 : cfg.height = 0)
    (hcur : s.cursor < cfg.window_size) :
    countExceed map v (cfg.width * cfg.height) = 0 ∧
    (lookformotion cfg map s v).1.window = s.window.set s.cursor 0 ∧
    (lookformotion cfg map s v).1.cursor = (s.cursor + 1) % cfg.window_size ∧
    ((lookformotion cfg map s v).2.2 = true ↔
      cfg.threshold ≤ (lookformotion cfg map s v).2.1) := by
  have hc : countExceed map v (cfg.width * cfg.height) = 0 := by
    rw [h0, Nat.mul_zero]
    rfl
  have h1 : (lookformotion cfg map s v).1 = (ma_filter cfg s 0).1 := by
    unfold lookformotion
    rw [hc]
  have hq : clampQ cfg 0 = 0 := by
    unfold clampQ
    rw [if_neg (Nat.not_lt_zero _)]
  refine ⟨hc, ?_, ?_, ?_⟩
  · rw [h1, ma_filter_eq]
    unfold winAfter
    rw [hq]
  · rw [h1, ma_filter_eq]
    exact cursorAdv _ _ hcur
  · constructor
    · exact of_decide_eq_true
    · exact decide_eq_true

/-- Witness for C9 amended at a concrete empty frame with a nonzero
threshold. -/
theorem empty_frame_amended_witness :
    (⟨5, 0, 3, 12⟩ : Config).height = 0 ∧
    (0 : Nat) < (⟨5, 0, 3, 12⟩ : Config).window_size ∧
    (countExceed [] [] ((⟨5, 0, 3, 12⟩ : Config).width * (⟨5, 0, 3, 12⟩ : Config).height) = 0 ∧
      (lookformotion ⟨5, 0, 3, 12⟩ [] ⟨List.replicate 12 0, 0, 0⟩ []).1.window
        = (List.replicate 12 0).set 0 0 ∧
      (lookformotion ⟨5, 0, 3, 12⟩ [] ⟨List.replicate 12 0, 0, 0⟩ []).1.cursor
        = (0 + 1) % (⟨5, 0, 3, 12⟩ : Config).window_size ∧
      ((lookformotion ⟨5, 0, 3, 12⟩ [] ⟨List.replicate 12 0, 0, 0⟩ []).2.2 = true ↔
        (⟨5, 0, 3, 12⟩ : Config).threshold
          ≤ (lookformotion ⟨5, 0, 3, 12⟩ [] ⟨List.replicate 12 0, 0, 0⟩ []).2.1)) :=
  ⟨rfl, by decide,
    empty_frame_amended ⟨5, 0, 3, 12⟩ [] ⟨List.replicate 12 0, 0, 0⟩ [] rfl (by decide)⟩

/-- C10: starting from the calloc-ed zero state of initmotion, after any
sequence of ma_filter calls the running sum equals the sum over all
window_size ring slots of min(slot, threshold*4) and the cursor stays in
[0, window_size); and on the next call the updated sum (whose quotient by
window_size is the noise floor) again equals the clamped total of the updated
ring — even though the code clamps at insertion and removal instead of
storing clamped values. -/
theorem filter_sum_invariant (cfg : Config) (ts : List Nat) (t : Nat)
    (h12 : 12 ≤ cfg.window_size) :
    ((runFilter cfg (initFilter cfg) ts).sum
        = sumClamped cfg (runFilter cfg (initFilter cfg) ts).window ∧
      (runFilter cfg (initFilter cfg) ts).cursor < cfg.window_size) ∧
    (ma_filter cfg (runFilter cfg (initFilter cfg) ts) t).1.sum
      = sumClamped cfg (ma_filter cfg (runFilter cfg (initFilter cfg) ts) t).1.window := by
  have hv := valid_runFilter cfg (initFilter cfg) ts (valid_initFilter cfg (by omega))
  refine ⟨⟨hv.2.2, hv.2.1⟩, ?_⟩
  exact (valid_step cfg _ t hv).2.2

/-- Witness for C10 at a concrete configuration and input sequence. -/
theorem filter_sum_invariant_witness :
    12 ≤ (⟨3, 2, 1, 12⟩ : Config).window_size ∧
    (((runFilter ⟨3, 2, 1, 12⟩ (initFilter ⟨3, 2, 1, 12⟩) [3, 5, 100]).sum
        = sumClamped ⟨3, 2, 1, 12⟩
            (runFilter ⟨3, 2, 1, 12⟩ (initFilter ⟨3, 2, 1, 12⟩) [3, 5, 100]).window ∧
      (runFilter ⟨3, 2, 1, 12⟩ (initFilter ⟨3, 2, 1, 12⟩) [3, 5, 100]).cursor
        < (⟨3, 2, 1, 12⟩ : Config).window_size) ∧
    (ma_filter ⟨3, 2, 1, 12⟩
        (runFilter ⟨3, 2, 1, 12⟩ (initFilter ⟨3, 2, 1, 12⟩) [3, 5, 100]) 7).1.sum
      = sumClamped ⟨3, 2, 1, 12⟩
          (ma_filter ⟨3, 2, 1, 12⟩
            (runFilter ⟨3, 2, 1, 12⟩ (initFilter ⟨3, 2, 1, 12⟩) [3, 5, 100]) 7).1.window) :=
  ⟨by decide, filter_sum_invariant ⟨3, 2, 1, 12⟩ [3, 5, 100] 7 (by decide)⟩

/-- C3 counterexample: with total stored macroblocks 10*10 = 100,
threshold 1 and window_size 12, feeding the constant raw count 20 (which is
below nmblk/4 = 25, so it is never clamped) makes the output settle at
20 - min(20, 4) = 16, not 0: the 12th, 24th and 36th outputs all equal 16. -/
theorem constant_input_cex :
    (ma_filter ⟨10, 10, 1, 12⟩ (runFilter ⟨10, 10, 1, 12⟩ ⟨List.replicate 12 0, 0, 0⟩
      (List.replicate 11 20)) 20).2 = 16 ∧
    (ma_filter ⟨10, 10, 1, 12⟩ (runFilter ⟨10, 10, 1, 12⟩ ⟨List.replicate 12 0, 0, 0⟩
      (List.replicate 23 20)) 20).2 = 16 ∧
    (ma_filter ⟨10, 10, 1, 12⟩ (runFilter ⟨10, 10, 1, 12⟩ ⟨List.replicate 12 0, 0, 0⟩
      (List.replicate 35 20)) 20).2 = 16 := by
  decide

theorem clampQ_zero (cfg : Config) : clampQ cfg 0 = 0 := by
  unfold clampQ
  rw [if_neg (Nat.not_lt_zero _)]

theorem runFilter_append (cfg : Config) (s : FilterState) (l1 l2 : List Nat) :
    runFilter cfg s (l1 ++ l2) = runFilter cfg (runFilter cfg s l1) l2 := by
  unfold runFilter
  rw [List.foldl_append]

theorem sumClamped_allbut (cfg : Config) (w : List Nat) (i a : Nat)
    (hi : i < w.length)
    (hall : ∀ j, j < w.length → j ≠ i → w.getD j 0 = a) :
    sumClamped cfg w = (w.length - 1) * clampT cfg a + clampT cfg (w.getD i 0) := by
  unfold sumClamped
  have hmem : i ∈ Finset.range w.length := Finset.mem_range.mpr hi
  rw [← Finset.add_sum_erase _ (fun j => clampT cfg (w.getD j 0)) hmem]
  have hcg : ∀ j ∈ (Finset.range w.length).erase i,
      clampT cfg (w.getD j 0) = clampT cfg a := by
    intro j hj
    have hj1 := Finset.mem_erase.mp hj
    rw [hall j (Finset.mem_range.mp hj1.2) hj1.1]
  rw [Finset.sum_congr rfl hcg, Finset.sum_const, Finset.card_erase_of_mem hmem,
    Finset.card_range, smul_eq_mul]
  omega

theorem ma_filter_stepNear (cfg : Config) (c : Nat) (s : FilterState)
    (h12 : 12 ≤ cfg.window_size) (hnu : NearUniform cfg c s) :
    NearUniform cfg c (ma_filter cfg s c).1 ∧
    (ma_filter cfg s c).1.sum = cfg.window_size * min (clampQ cfg c) (cfg.threshold * 4) ∧
    (ma_filter cfg s c).2 = clampQ cfg c - min (clampQ cfg c) (cfg.threshold * 4) := by
  obtain ⟨hlen, hcur, hsum, hall⟩ := hnu
  have hW : 0 < cfg.window_size := by omega
  have hcl : s.cursor < s.window.length := by omega
  have hwin : ∀ j, j < cfg.window_size →
      (winAfter cfg s c).getD j 0 = clampQ cfg c := by
    intro j hj
    by_cases h : j = s.cursor
    · subst h
      exact getD_set_self _ _ _ _ hcl
    · unfold winAfter
      rw [getD_set_ne _ _ _ _ _ (fun he => h he.symm)]
      exact hall j hj h
  have hsum2 : sumAfter cfg s c
      = cfg.window_size * min (clampQ cfg c) (cfg.threshold * 4) := by
    have hall2 : ∀ j, j < s.window.length → j ≠ s.cursor →
        s.window.getD j 0 = clampQ cfg c := by
      intro j hj hne
      exact hall j (by omega) hne
    have hb := sumClamped_allbut cfg s.window s.cursor (clampQ cfg c) hcl hall2
    unfold clampT at hb
    have hmul : cfg.window_size * min (clampQ cfg c) (cfg.threshold * 4)
        = (s.window.length - 1) * min (clampQ cfg c) (cfg.threshold * 4)
          + min (clampQ cfg c) (cfg.threshold * 4) := by
      have hW1 : cfg.window_size = (s.window.length - 1) + 1 := by omega
      rw [hW1, Nat.succ_mul]
    unfold sumAfter
    set A := (s.window.length - 1) * min (clampQ cfg c) (cfg.threshold * 4) with hA
    set D := cfg.window_size * min (clampQ cfg c) (cfg.threshold * 4) with hD
    omega
  have htrend : trendAfter cfg s c = clampQ cfg c := by
    unfold trendAfter
    rw [list_sum_range_eq]
    have hcg : ∀ j ∈ Finset.range 12,
        (winAfter cfg s c).getD (ringIdx cfg.window_size s.cursor j) 0
          = clampQ cfg c := by
      intro j hj
      have hj12 : j < 12 := Finset.mem_range.mp hj
      exact hwin _ (ringIdx_lt _ _ _ hcur (by omega))
    rw [Finset.sum_congr rfl hcg, Finset.sum_const, Finset.card_range, smul_eq_mul]
    exact Nat.mul_div_cancel_left _ (by omega)
  have hnf : nfAfter cfg s c = min (clampQ cfg c) (cfg.threshold * 4) := by
    unfold nfAfter
    rw [hsum2]
    exact Nat.mul_div_cancel_left _ hW
  refine ⟨⟨?_, ?_, ?_, ?_⟩, ?_, ?_⟩
  · rw [ma_filter_eq]
    show (winAfter cfg s c).length = cfg.window_size
    unfold winAfter
    simp [hlen]
  · rw [ma_filter_eq]
    show (if cfg.window_size ≤ s.cursor + 1 then 0 else s.cursor + 1) < cfg.window_size
    rw [cursorAdv _ _ hcur]
    exact Nat.mod_lt _ hW
  · exact (valid_step cfg s c ⟨hlen, hcur, hsum⟩).2.2
  · intro j hj _
    rw [ma_filter_eq]
    exact hwin j hj
  · rw [ma_filter_eq]
    exact hsum2
  · rw [ma_filter_eq]
    show (if nfAfter cfg s c < trendAfter cfg s c
        then trendAfter cfg s c - nfAfter cfg s c else 0) = _
    rw [htrend, hnf]
    have hle := Nat.min_le_left (clampQ cfg c) (cfg.threshold * 4)
    split <;> omega

theorem runFilter_const_window (cfg : Config) (c : Nat) (s : FilterState)
    (hv : Valid cfg s) :
    ∀ k, k ≤ cfg.window_size →
      Valid cfg (runFilter cfg s (List.replicate k c)) ∧
      (runFilter cfg s (List.replicate k c)).cursor
        = (s.cursor + k) % cfg.window_size ∧
      ∀ m, m < k → (runFilter cfg s (List.replicate k c)).window.getD
          ((s.cursor + m) % cfg.window_size) 0 = clampQ cfg c := by
  intro k
  induction k with
  | zero =>
    intro _
    refine ⟨hv, ?_, fun m hm => absurd hm (Nat.not_lt_zero m)⟩
    show s.cursor = (s.cursor + 0) % cfg.window_size
    rw [Nat.add_zero, Nat.mod_eq_of_lt hv.2.1]
  | succ n ih =>
    intro hk
    obtain ⟨ihv, ihc, ihw⟩ := ih (by omega)
    have hstep : runFilter cfg s (List.replicate (n + 1) c)
        = (ma_filter cfg (runFilter cfg s (List.replicate n c)) c).1 := by
      rw [List.replicate_succ', runFilter_append]
      rfl
    have hlN := ihv.1
    have hcN := ihv.2.1
    have hclN : (runFilter cfg s (List.replicate n c)).cursor
        < (runFilter cfg s (List.replicate n c)).window.length := by omega
    refine ⟨hstep ▸ valid_step cfg _ c ihv, ?_, ?_⟩
    · rw [hstep, ma_filter_eq]
      show (if cfg.window_size ≤ _ + 1 then 0 else _ + 1) = _
      rw [cursorAdv _ _ hcN, ihc, modAddShift]
      rfl
    · intro m hm
      rw [hstep, ma_filter_eq]
      show (winAfter cfg _ c).getD ((s.cursor + m) % cfg.window_size) 0 = clampQ cfg c
      rcases Nat.lt_or_ge m n with hmn | hmn
      · unfold winAfter
        have hne : (runFilter cfg s (List.replicate n c)).cursor
            ≠ (s.cursor + m) % cfg.window_size := by
          rw [ihc]
          intro he
          have := addModCancel cfg.window_size s.cursor n m (by omega) (by omega) he
          omega
        rw [getD_set_ne _ _ _ _ _ hne]
        exact ihw m hmn
      · have hmeq : m = n := by omega
        subst hmeq
        unfold winAfter
        rw [← ihc]
        exact getD_set_self _ _ _ _ hclN

theorem runFilter_warmNear (cfg : Config) (c : Nat) (s : FilterState)
    (h12 : 12 ≤ cfg.window_size) (hv : Valid cfg s) :
    NearUniform cfg c
      (runFilter cfg s (List.replicate (cfg.window_size - 1) c)) := by
  obtain ⟨hval, hcur, hwin⟩ :=
    runFilter_const_window cfg c s hv (cfg.window_size - 1) (by omega)
  have hp : s.cursor < cfg.window_size := hv.2.1
  refine ⟨hval.1, hval.2.1, hval.2.2, ?_⟩
  intro j hj hjc
  have hm1 : (s.cursor + ((j + (cfg.window_size - s.cursor)) % cfg.window_size))
      % cfg.window_size = j := by
    rw [Nat.add_comm s.cursor, modAddShift,
      show j + (cfg.window_size - s.cursor) + s.cursor = j + cfg.window_size from by omega,
      Nat.add_mod_right, Nat.mod_eq_of_lt hj]
  have hmW : (j + (cfg.window_size - s.cursor)) % cfg.window_size
      < cfg.window_size := Nat.mod_lt _ (by omega)
  have hmne : (j + (cfg.window_size - s.cursor)) % cfg.window_size
      ≠ cfg.window_size - 1 := by
    intro he
    refine hjc ?_
    rw [← hm1, he, hcur]
  have := hwin ((j + (cfg.window_size - s.cursor)) % cfg.window_size) (by omega)
  rwa [hm1] at this

/-- C3 amended: feeding a constant raw count c for at least window_size
consecutive frames (from any well-formed state, window_size >= 12) makes the
noise floor converge to min(c', threshold*4) and the output converge to
max(c' - min(c', threshold*4), 0), where c' is c clamped to threshold when it
exceeds nmblk/4 — so steady motion is fully absorbed (output 0) exactly when
c' <= 4*threshold, and otherwise the output settles at c' - 4*threshold, not
at 0.  Stated for the k-th observation for every k >= window_size
(k = window_size + m). -/
theorem constant_input_convergence (cfg : Config) (s : FilterState) (c m : Nat)
    (h12 : 12 ≤ cfg.window_size) (hv : Valid cfg s) :
    (ma_filter cfg (runFilter cfg s
        (List.replicate (cfg.window_size - 1 + m) c)) c).2
      = clampQ cfg c - min (clampQ cfg c) (cfg.threshold * 4) ∧
    (ma_filter cfg (runFilter cfg s
        (List.replicate (cfg.window_size - 1 + m) c)) c).1.sum / cfg.window_size
      = min (clampQ cfg c) (cfg.threshold * 4) := by
  have hnu : ∀ n, NearUniform cfg c
      (runFilter cfg s (List.replicate (cfg.window_size - 1 + n) c)) := by
    intro n
    induction n with
    | zero => exact runFilter_warmNear cfg c s h12 hv
    | succ k ihk =>
      rw [show cfg.window_size - 1 + (k + 1) = (cfg.window_size - 1 + k) + 1 from rfl,
        List.replicate_succ', runFilter_append]
      exact (ma_filter_stepNear cfg c _ h12 ihk).1
  obtain ⟨_, hsum, hout⟩ := ma_filter_stepNear cfg c _ h12 (hnu m)
  refine ⟨hout, ?_⟩
  rw [hsum]
  exact Nat.mul_div_cancel_left _ (by omega)

/-- Witness for C3 amended at the counterexample parameters: c = 20,
threshold 1, window_size 12, m = 2, starting from the zeroed state. -/
theorem constant_input_convergence_witness :
    12 ≤ (⟨10, 10, 1, 12⟩ : Config).window_size ∧
    Valid ⟨10, 10, 1, 12⟩ ⟨List.replicate 12 0, 0, 0⟩ ∧
    ((ma_filter ⟨10, 10, 1, 12⟩ (runFilter ⟨10, 10, 1, 12⟩ ⟨List.replicate 12 0, 0, 0⟩
        (List.replicate ((⟨10, 10, 1, 12⟩ : Config).window_size - 1 + 2) 20)) 20).2
      = clampQ ⟨10, 10, 1, 12⟩ 20
          - min (clampQ ⟨10, 10, 1, 12⟩ 20) ((⟨10, 10, 1, 12⟩ : Config).threshold * 4) ∧
    (ma_filter ⟨10, 10, 1, 12⟩ (runFilter ⟨10, 10, 1, 12⟩ ⟨List.replicate 12 0, 0, 0⟩
        (List.replicate ((⟨10, 10, 1, 12⟩ : Config).window_size - 1 + 2) 20)) 20).1.sum
        / (⟨10, 10, 1, 12⟩ : Config).window_size
      = min (clampQ ⟨10, 10, 1, 12⟩ 20) ((⟨10, 10, 1, 12⟩ : Config).threshold * 4)) :=
  ⟨by decide, by decide,
    constant_input_convergence ⟨10, 10, 1, 12⟩ ⟨List.replicate 12 0, 0, 0⟩ 20 2
      (by decide) (by decide)⟩

/-- C2 counterexample: with threshold 1, window_size 12 and a warmed-up
all-zero filter, a spike frame whose exceedance count 1 is >= threshold
followed by window_size frames of 0 exceedances produces ZERO callback
invocations, not exactly one: the spike's smoothed output is
1/12 - 0 = 0 < threshold. -/
theorem spike_single_callback_cex :
    runFires ⟨10, 10, 1, 12⟩ ⟨List.replicate 12 0, 0, 0⟩ (1 :: List.replicate 12 0) = 0 := by
  decide

theorem not_dvd_sub (W b : Nat) (hb1 : 1 ≤ b) (hbW : b < W) : ¬ W ∣ (W - b) := by
  intro hd
  obtain ⟨k, hk⟩ := hd
  rcases Nat.eq_zero_or_pos k with h0 | h1
  · subst h0
    omega
  · have hge : W * 1 ≤ W * k := Nat.mul_le_mul_left W h1
    omega

theorem dvd_window_iff (W r j : Nat) (h12 : 12 ≤ W) (hr1 : 1 ≤ r) (hrW : r ≤ W - 1)
    (hj : j < 12) : W ∣ (W - r) + (W - j) ↔ j + r = W := by
  constructor
  · intro hd
    obtain ⟨k, hk⟩ := hd
    have hkpos : 1 ≤ k := by
      rcases Nat.eq_zero_or_pos k with h0 | h1
      · subst h0
        omega
      · exact h1
    have hk2 : k < 2 := by
      by_contra hge
      push_neg at hge
      have : W * 2 ≤ W * k := Nat.mul_le_mul_left W hge
      omega
    have hk1 : k = 1 := by omega
    subst hk1
    omega
  · intro he
    have heq : (W - r) + (W - j) = W := by omega
    rw [heq]

theorem spike_first_frame (cfg : Config) (p c : Nat)
    (h12 : 12 ≤ cfg.window_size) (hp : p < cfg.window_size) :
    ma_filter cfg ⟨List.replicate cfg.window_size 0, p, 0⟩ c
      = (⟨(List.replicate cfg.window_size 0).set p (clampQ cfg c),
          (p + 1) % cfg.window_size,
          min (clampQ cfg c) (cfg.threshold * 4)⟩,
        clampQ cfg c / 12 - min (clampQ cfg c) (cfg.threshold * 4) / cfg.window_size) := by
  have hplen : p < (List.replicate cfg.window_size (0 : Nat)).length := by
    rw [List.length_replicate]
    exact hp
  have hsum : sumAfter cfg ⟨List.replicate cfg.window_size 0, p, 0⟩ c
      = min (clampQ cfg c) (cfg.threshold * 4) := by
    show (0 : Nat) + min (clampQ cfg c) (cfg.threshold * 4)
        - min ((List.replicate cfg.window_size 0).getD p 0) (cfg.threshold * 4) = _
    rw [getD_replicate_zero]
    simp
  have hnf : nfAfter cfg ⟨List.replicate cfg.window_size 0, p, 0⟩ c
      = min (clampQ cfg c) (cfg.threshold * 4) / cfg.window_size := by
    unfold nfAfter
    rw [hsum]
  have htr : trendAfter cfg ⟨List.replicate cfg.window_size 0, p, 0⟩ c
      = clampQ cfg c / 12 := by
    unfold trendAfter
    rw [list_sum_range_eq]
    have hzero : ∀ b ∈ Finset.range 12, b ≠ 0 →
        (winAfter cfg ⟨List.replicate cfg.window_size 0, p, 0⟩ c).getD
          (ringIdx cfg.window_size p b) 0 = 0 := by
      intro b hb hb0
      have hb12 : b < 12 := Finset.mem_range.mp hb
      rw [ringIdx_eq_mod _ _ _ hp (by omega),
        show p + cfg.window_size - b = p + (cfg.window_size - b) from by omega]
      have hnp : (p + (cfg.window_size - b)) % cfg.window_size ≠ p := by
        intro he
        exact not_dvd_sub cfg.window_size b (by omega) (by omega)
          ((addModEqSelf cfg.window_size p _ hp).mp he)
      unfold winAfter
      rw [getD_set_ne _ _ _ _ _ (fun he => hnp he.symm), getD_replicate_zero]
    rw [Finset.sum_eq_single_of_mem 0 (Finset.mem_range.mpr (by omega)) hzero]
    have hidx0 : ringIdx cfg.window_size p 0 = p := by
      unfold ringIdx
      rw [if_neg (Nat.not_lt_zero p)]
      omega
    rw [hidx0]
    unfold winAfter
    rw [getD_set_self _ _ _ _ hplen]
  rw [ma_filter_eq]
  simp only [Prod.mk.injEq, FilterState.mk.injEq]
  refine ⟨⟨rfl, cursorAdv _ _ hp, hsum⟩, ?_⟩
  rw [htr, hnf]
  split <;> omega

theorem spike_tail_fires (cfg : Config) (p c : Nat) (h12 : 12 ≤ cfg.window_size)
    (hT : 1 ≤ cfg.threshold) (hp : p < cfg.window_size) :
    ∀ r, r ≤ cfg.window_size →
      runFires cfg ⟨(List.replicate cfg.window_size 0).set p (clampQ cfg c),
          (p + (cfg.window_size - r + 1)) % cfg.window_size,
          min (clampQ cfg c) (cfg.threshold * 4)⟩
        (List.replicate r 0)
      = (if cfg.threshold ≤ clampQ cfg c / 12
            - min (clampQ cfg c) (cfg.threshold * 4) / cfg.window_size
          then 1 else 0) * (r + 11 - cfg.window_size) := by
  have hW : 0 < cfg.window_size := by omega
  have hlen1 : ((List.replicate cfg.window_size (0 : Nat)).set p (clampQ cfg c)).length
      = cfg.window_size := by
    simp
  have hplen : p < (List.replicate cfg.window_size (0 : Nat)).length := by
    rw [List.length_replicate]
    exact hp
  intro r
  induction r with
  | zero =>
    intro _
    show (0 : Nat) = _ * (0 + 11 - cfg.window_size)
    rw [show 0 + 11 - cfg.window_size = 0 from by omega, Nat.mul_zero]
  | succ r ih =>
    intro hr
    rw [show cfg.window_size - (r + 1) + 1 = cfg.window_size - r from by omega,
      List.replicate_succ]
    have hqW : (p + (cfg.window_size - r)) % cfg.window_size < cfg.window_size :=
      Nat.mod_lt _ hW
    rcases Nat.eq_zero_or_pos r with hr0 | hrpos
    · subst hr0
      have hqp : (p + (cfg.window_size - 0)) % cfg.window_size = p := by
        rw [Nat.sub_zero, Nat.add_mod_right, Nat.mod_eq_of_lt hp]
      rw [hqp]
      have hmf : ma_filter cfg
          ⟨(List.replicate cfg.window_size 0).set p (clampQ cfg c), p,
            min (clampQ cfg c) (cfg.threshold * 4)⟩ 0
          = (⟨List.replicate cfg.window_size 0, (p + 1) % cfg.window_size, 0⟩, 0) := by
        have hwa : winAfter cfg
            ⟨(List.replicate cfg.window_size 0).set p (clampQ cfg c), p,
              min (clampQ cfg c) (cfg.threshold * 4)⟩ 0
            = List.replicate cfg.window_size 0 := by
          unfold winAfter
          rw [clampQ_zero, List.set_set]
          exact set_getD_same _ _ _ _ (getD_replicate_zero _ _) hplen
        have hsa : sumAfter cfg
            ⟨(List.replicate cfg.window_size 0).set p (clampQ cfg c), p,
              min (clampQ cfg c) (cfg.threshold * 4)⟩ 0 = 0 := by
          unfold sumAfter
          rw [clampQ_zero, getD_set_self _ _ _ _ hplen]
          simp
        have htr : trendAfter cfg
            ⟨(List.replicate cfg.window_size 0).set p (clampQ cfg c), p,
              min (clampQ cfg c) (cfg.threshold * 4)⟩ 0 = 0 := by
          unfold trendAfter
          rw [list_sum_range_eq, hwa]
          have hz : ∀ j ∈ Finset.range 12,
              (List.replicate cfg.window_size (0 : Nat)).getD
                (ringIdx cfg.window_size p j) 0 = 0 := by
            intro j _
            exact getD_replicate_zero _ _
          rw [Finset.sum_congr rfl hz, Finset.sum_const_zero]
          exact Nat.zero_div _
        rw [ma_filter_eq]
        simp only [Prod.mk.injEq, FilterState.mk.injEq]
        refine ⟨⟨hwa, cursorAdv _ _ hp, hsa⟩, ?_⟩
        rw [htr]
        unfold nfAfter
        rw [hsa]
        rfl
      rw [runFires, hmf]
      show (if cfg.threshold ≤ 0 then 1 else 0) + runFires _ _ (List.replicate 0 0) = _
      rw [if_neg (by omega), show (0 : Nat) + 1 + 11 - cfg.window_size = 0 from by omega,
        Nat.mul_zero]
      rfl
    · have hrW : r ≤ cfg.window_size - 1 := by omega
      have hqnep : (p + (cfg.window_size - r)) % cfg.window_size ≠ p := by
        intro he
        exact not_dvd_sub cfg.window_size r hrpos (by omega)
          ((addModEqSelf cfg.window_size p _ hp).mp he)
      have hq0 : ((List.replicate cfg.window_size (0 : Nat)).set p (clampQ cfg c)).getD
          ((p + (cfg.window_size - r)) % cfg.window_size) 0 = 0 := by
        rw [getD_set_ne _ _ _ _ _ (fun he => hqnep he.symm), getD_replicate_zero]
      have hidx : ∀ j, j < 12 →
          (((p + (cfg.window_size - r)) % cfg.window_size + cfg.window_size - j)
              % cfg.window_size = p
            ↔ j + r = cfg.window_size) := by
        intro j hj
        rw [show (p + (cfg.window_size - r)) % cfg.window_size + cfg.window_size - j
            = (p + (cfg.window_size - r)) % cfg.window_size + (cfg.window_size - j)
          from by omega, modAddShift, Nat.add_assoc, addModEqSelf cfg.window_size p _ hp]
        exact dvd_window_iff cfg.window_size r j h12 hrpos hrW hj
      have hwa : winAfter cfg
          ⟨(List.replicate cfg.window_size 0).set p (clampQ cfg c),
            (p + (cfg.window_size - r)) % cfg.window_size,
            min (clampQ cfg c) (cfg.threshold * 4)⟩ 0
          = (List.replicate cfg.window_size 0).set p (clampQ cfg c) := by
        unfold winAfter
        rw [clampQ_zero]
        refine set_getD_same _ _ _ _ hq0 ?_
        rw [hlen1]
        exact hqW
      have hsa : sumAfter cfg
          ⟨(List.replicate cfg.window_size 0).set p (clampQ cfg c),
            (p + (cfg.window_size - r)) % cfg.window_size,
            min (clampQ cfg c) (cfg.threshold * 4)⟩ 0
          = min (clampQ cfg c) (cfg.threshold * 4) := by
        unfold sumAfter
        rw [clampQ_zero, hq0]
        simp
      have hcadv : (if cfg.window_size ≤ (p + (cfg.window_size - r)) % cfg.window_size + 1
          then 0 else (p + (cfg.window_size - r)) % cfg.window_size + 1)
          = (p + (cfg.window_size - r + 1)) % cfg.window_size := by
        rw [cursorAdv _ _ hqW, modAddShift, Nat.add_assoc]
      rcases Nat.lt_or_ge (r + 11) cfg.window_size with hcase | hcase
      · -- the spike has left the 12-sample trend window: no hit, no fire
        have htr : trendAfter cfg
            ⟨(List.replicate cfg.window_size 0).set p (clampQ cfg c),
              (p + (cfg.window_size - r)) % cfg.window_size,
              min (clampQ cfg c) (cfg.threshold * 4)⟩ 0 = 0 := by
          unfold trendAfter
          rw [list_sum_range_eq, hwa]
          have hz : ∀ j ∈ Finset.range 12,
              ((List.replicate cfg.window_size (0 : Nat)).set p (clampQ cfg c)).getD
                (ringIdx cfg.window_size
                  ((p + (cfg.window_size - r)) % cfg.window_size) j) 0 = 0 := by
            intro j hj
            have hj12 : j < 12 := Finset.mem_range.mp hj
            rw [ringIdx_eq_mod _ _ _ hqW (by omega)]
            have hnp : ((p + (cfg.window_size - r)) % cfg.window_size
                + cfg.window_size - j) % cfg.window_size ≠ p := by
              intro he
              have := (hidx j hj12).mp he
              omega
            rw [getD_set_ne _ _ _ _ _ (fun he => hnp he.symm), getD_replicate_zero]
          rw [Finset.sum_congr rfl hz, Finset.sum_const_zero]
          exact Nat.zero_div _
        have hmf : ma_filter cfg
            ⟨(List.replicate cfg.window_size 0).set p (clampQ cfg c),
              (p + (cfg.window_size - r)) % cfg.window_size,
              min (clampQ cfg c) (cfg.threshold * 4)⟩ 0
            = (⟨(List.replicate cfg.window_size 0).set p (clampQ cfg c),
                (p + (cfg.window_size - r + 1)) % cfg.window_size,
                min (clampQ cfg c) (cfg.threshold * 4)⟩, 0) := by
          rw [ma_filter_eq]
          simp only [Prod.mk.injEq, FilterState.mk.injEq]
          refine ⟨⟨hwa, hcadv, hsa⟩, ?_⟩
          rw [htr]
          exact if_neg (Nat.not_lt_zero _)
        rw [runFires, hmf]
        show (if cfg.threshold ≤ 0 then 1 else 0) + runFires _ _ _ = _
        rw [if_neg (by omega), ih (by omega),
          show r + 11 - cfg.window_size = 0 from by omega,
          show r + 1 + 11 - cfg.window_size = 0 from by omega, Nat.mul_zero]
      · -- the spike slot is still among the 12 most recent samples
        have hjstar : cfg.window_size - r < 12 := by omega
        have htr : trendAfter cfg
            ⟨(List.replicate cfg.window_size 0).set p (clampQ cfg c),
              (p + (cfg.window_size - r)) % cfg.window_size,
              min (clampQ cfg c) (cfg.threshold * 4)⟩ 0
            = clampQ cfg c / 12 := by
          unfold trendAfter
          rw [list_sum_range_eq, hwa]
          have hzero : ∀ b ∈ Finset.range 12, b ≠ cfg.window_size - r →
              ((List.replicate cfg.window_size (0 : Nat)).set p (clampQ cfg c)).getD
                (ringIdx cfg.window_size
                  ((p + (cfg.window_size - r)) % cfg.window_size) b) 0 = 0 := by
            intro b hb hbne
            have hb12 : b < 12 := Finset.mem_range.mp hb
            rw [ringIdx_eq_mod _ _ _ hqW (by omega)]
            have hnp : ((p + (cfg.window_size - r)) % cfg.window_size
                + cfg.window_size - b) % cfg.window_size ≠ p := by
              intro he
              have := (hidx b hb12).mp he
              omega
            rw [getD_set_ne _ _ _ _ _ (fun he => hnp he.symm), getD_replicate_zero]
          rw [Finset.sum_eq_single_of_mem (cfg.window_size - r)
            (Finset.mem_range.mpr hjstar) hzero,
            ringIdx_eq_mod _ _ _ hqW (by omega),
            (hidx (cfg.window_size - r) hjstar).mpr (by omega),
            getD_set_self _ _ _ _ hplen]
        have hmf : ma_filter cfg
            ⟨(List.replicate cfg.window_size 0).set p (clampQ cfg c),
              (p + (cfg.window_size - r)) % cfg.window_size,
              min (clampQ cfg c) (cfg.threshold * 4)⟩ 0
            = (⟨(List.replicate cfg.window_size 0).set p (clampQ cfg c),
                (p + (cfg.window_size - r + 1)) % cfg.window_size,
                min (clampQ cfg c) (cfg.threshold * 4)⟩,
               clampQ cfg c / 12
                 - min (clampQ cfg c) (cfg.threshold * 4) / cfg.window_size) := by
          rw [ma_filter_eq]
          simp only [Prod.mk.injEq, FilterState.mk.injEq]
          refine ⟨⟨hwa, hcadv, hsa⟩, ?_⟩
          rw [htr]
          unfold nfAfter
          rw [hsa]
          split <;> omega
        rw [runFires, hmf]
        show (if cfg.threshold ≤ clampQ cfg c / 12
            - min (clampQ cfg c) (cfg.threshold * 4) / cfg.window_size
          then 1 else 0) + runFires _ _ _ = _
        rw [ih (by omega), show r + 1 + 11 - cfg.window_size
            = (r + 11 - cfg.window_size) + 1 from by omega, Nat.mul_succ]
        exact Nat.add_comm _ _

/-- C2 amended: from a warmed-up all-zero filter (any cursor position p),
with threshold >= 1 and window_size >= 12, a single spike frame of raw count
c followed by window_size zero frames causes either exactly 12 callback
invocations — on the spike frame and the 11 following frames, while the spike
is inside the 12-sample trend window, exactly when the spike frame's smoothed
output clamped(c)/12 - min(clamped(c), 4*threshold)/window_size reaches the
threshold — or none at all; never exactly one. -/
theorem spike_callbacks_zero_or_twelve (cfg : Config) (p c : Nat)
    (h12 : 12 ≤ cfg.window_size) (hT : 1 ≤ cfg.threshold) (hp : p < cfg.window_size) :
    runFires cfg ⟨List.replicate cfg.window_size 0, p, 0⟩
        (c :: List.replicate cfg.window_size 0)
      = (if cfg.threshold
            ≤ (ma_filter cfg ⟨List.replicate cfg.window_size 0, p, 0⟩ c).2
          then 12 else 0) ∧
    (ma_filter cfg ⟨List.replicate cfg.window_size 0, p, 0⟩ c).2
      = clampQ cfg c / 12
        - min (clampQ cfg c) (cfg.threshold * 4) / cfg.window_size := by
  have h1 := spike_first_frame cfg p c h12 hp
  have hout : (ma_filter cfg ⟨List.replicate cfg.window_size 0, p, 0⟩ c).2
      = clampQ cfg c / 12
        - min (clampQ cfg c) (cfg.threshold * 4) / cfg.window_size := by
    rw [h1]
  refine ⟨?_, hout⟩
  have h2 := spike_tail_fires cfg p c h12 hT hp cfg.window_size le_rfl
  rw [show cfg.window_size - cfg.window_size + 1 = 1 from by omega,
    show cfg.window_size + 11 - cfg.window_size = 11 from by omega] at h2
  rw [runFires, h1]
  dsimp only
  rw [h2]
  rcases le_or_lt cfg.threshold
      (clampQ cfg c / 12 - min (clampQ cfg c) (cfg.threshold * 4) / cfg.window_size)
    with hc | hc
  · rw [if_pos hc, if_pos hc]
  · rw [if_neg (by omega), if_neg (by omega)]

/-- Witness for C2 amended at a firing instance: spike 100, threshold 1,
window_size 12 — the spike output is 100/12 - 4/12 = 8 >= 1, and exactly 12
callbacks result. -/
theorem spike_callbacks_zero_or_twelve_witness :
    12 ≤ (⟨100, 100, 1, 12⟩ : Config).window_size ∧
    1 ≤ (⟨100, 100, 1, 12⟩ : Config).threshold ∧
    0 < (⟨100, 100, 1, 12⟩ : Config).window_size ∧
    (runFires ⟨100, 100, 1, 12⟩ ⟨List.replicate 12 0, 0, 0⟩
        (100 :: List.replicate 12 0)
      = (if (⟨100, 100, 1, 12⟩ : Config).threshold
            ≤ (ma_filter ⟨100, 100, 1, 12⟩ ⟨List.replicate 12 0, 0, 0⟩ 100).2
          then 12 else 0) ∧
    (ma_filter ⟨100, 100, 1, 12⟩ ⟨List.replicate 12 0, 0, 0⟩ 100).2
      = clampQ ⟨100, 100, 1, 12⟩ 100 / 12
        - min (clampQ ⟨100, 100, 1, 12⟩ 100)
            ((⟨100, 100, 1, 12⟩ : Config).threshold * 4)
          / (⟨100, 100, 1, 12⟩ : Config).window_size) :=
  ⟨by decide, by decide, by decide,
    spike_callbacks_zero_or_twelve ⟨100, 100, 1, 12⟩ 0 100
      (by decide) (by decide) (by decide)⟩

end Picam
